import Mathlib

/-!
Verification of the geoist repository's epicenter forward model
(`geoist/inversion/epic2d.py`) and derivative anomaly detector
(`geoist/snoopy/algorithms/anomaly_detector_algorithms/derivative_detector.py`)
against its natural-language specification.

Machine floats are modelled by real numbers; numpy arrays by lists.
Python calls that raise are modelled with `Option` (`none` = exception).
-/

noncomputable section

namespace Geoist

/-- The `Homogeneous` solver class of `geoist/inversion/epic2d.py`.
`__init__` stores the travel-time residuals (`data=ttres` handed to the
`Misfit` base), the receiver coordinates `self.recs = np.array(recs)`, and the
velocities `self.vp`, `self.vs`.  The constructor performs no validation of its
own; in particular it never compares `len(ttres)` with `len(recs)`. -/
structure Homogeneous where
  ttres : List ℝ
  recs : List (ℝ × ℝ)
  vp : ℝ
  vs : ℝ

/-- Modelled from the spec: the `Misfit` base class (out of scope, not under
`src/`) stores the observation vector and exposes `self.ndata`, the number of
observations, used by `jacobian` for the row count of the empty matrix. -/
def Homogeneous.ndata (h : Homogeneous) : ℕ := h.ttres.length

/-- Modelled from the spec: `Misfit` stores the `nparams=2` passed by
`Homogeneous.__init__` and exposes it as `self.nparams`. -/
def Homogeneous.nparams (_h : Homogeneous) : ℕ := 2

/-- `alpha = 1/self.vs - 1/self.vp`, as computed in both `predicted` and
`jacobian`. -/
def Homogeneous.alpha (h : Homogeneous) : ℝ := 1 / h.vs - 1 / h.vp

/-- One element of the array built by `predicted`:
`alpha*np.sqrt((self.recs[:, 0] - x)**2 + (self.recs[:, 1] - y)**2)` at
receiver `r` and parameter pair `p = (x, y)`. -/
def Homogeneous.predictedAt (h : Homogeneous) (r p : ℝ × ℝ) : ℝ :=
  h.alpha * Real.sqrt ((r.1 - p.1) ^ 2 + (r.2 - p.2) ^ 2)

/-- `Homogeneous.predicted` after the unpacking `x, y = p` has succeeded:
elementwise over the receiver array. -/
def Homogeneous.predicted (h : Homogeneous) (p : ℝ × ℝ) : List ℝ :=
  h.recs.map (fun r => h.predictedAt r p)

/-- `Homogeneous.predicted` as the Python method receives its argument: a
sequence `p`.  The first statement `x, y = p` raises `ValueError` unless `p`
has exactly two entries; the raise is modelled by `none`. -/
def Homogeneous.predictedSeq (h : Homogeneous) (p : List ℝ) : Option (List ℝ) :=
  match p with
  | [x, y] => some (h.predicted (x, y))
  | _ => none

/-- One row of the Jacobian:
`jac[i, 0] = -alpha*(recs[i, 0] - x)/sqrt_i` and
`jac[i, 1] = -alpha*(recs[i, 1] - y)/sqrt_i` where
`sqrt_i = np.sqrt((recs[i, 0] - x)**2 + (recs[i, 1] - y)**2)`. -/
def Homogeneous.jacobianRow (h : Homogeneous) (p r : ℝ × ℝ) : ℝ × ℝ :=
  let s := Real.sqrt ((r.1 - p.1) ^ 2 + (r.2 - p.2) ^ 2)
  (-h.alpha * (r.1 - p.1) / s, -h.alpha * (r.2 - p.2) / s)

/-- `Homogeneous.jacobian`: allocates `np.empty((self.ndata, self.nparams))`
and assigns each column from an array of length `len(recs)`.  The numpy
column assignment succeeds iff `len(recs) == ndata` (exact fit) or
`len(recs) == 1` (broadcast of a single row); otherwise numpy raises a
`ValueError`, modelled by `none`. -/
def Homogeneous.jacobian (h : Homogeneous) (p : ℝ × ℝ) : Option (List (ℝ × ℝ)) :=
  if h.recs.length = h.ndata then
    some (h.recs.map (fun r => h.jacobianRow p r))
  else
    match h.recs with
    | [r] => some (List.replicate h.ndata (h.jacobianRow p r))
    | _ => none

/-- Method-call form of `predicted`: the Python body only reads
`self.vs`, `self.vp`, `self.recs` and assigns no attribute, so the state of
the instance after the call is the unchanged receiver, returned explicitly. -/
def Homogeneous.predictedCall (h : Homogeneous) (p : List ℝ) :
    Option (List ℝ) × Homogeneous :=
  (h.predictedSeq p, h)

/-- Method-call form of `jacobian`; like `predicted` the body assigns no
attribute of `self`, so the post-call state is the unchanged receiver. -/
def Homogeneous.jacobianCall (h : Homogeneous) (p : ℝ × ℝ) :
    Option (List (ℝ × ℝ)) × Homogeneous :=
  (h.jacobian p, h)

/-- Euclidean distance of two points of the plane, the notion the spec's words
refer to: "the Euclidean distance between receiver i and (x, y)". -/
def euclideanDist (a b : ℝ × ℝ) : ℝ :=
  Real.sqrt ((a.1 - b.1) ^ 2 + (a.2 - b.2) ^ 2)

/-- `List.getD` of a mapped list, for an index in range. -/
theorem getD_map_lt {α β : Type} (f : α → β) (l : List α) (i : ℕ) (d : α)
    (db : β) (hi : i < l.length) : (l.map f).getD i db = f (l.getD i d) := by
  induction l generalizing i with
  | nil => simp at hi
  | cons a t ih =>
    cases i with
    | zero => simp [List.getD]
    | succ j =>
      simp only [List.map_cons, List.getD_cons_succ]
      exact ih j (by simpa using hi)

/-- C1: for every parameter pair `p = (x, y)` the array returned by
`predicted` has one entry per receiver, and entry `i` equals
`(1/vs - 1/vp)` times the Euclidean distance between receiver `i` and `p`. -/
theorem C1_predicted_length_and_formula (h : Homogeneous) (p : ℝ × ℝ)
    (i : ℕ) (hi : i < h.recs.length) :
    (h.predicted p).length = h.recs.length ∧
    (h.predicted p).getD i 0 =
      (1 / h.vs - 1 / h.vp) * euclideanDist (h.recs.getD i (0, 0)) p := by
  constructor
  · simp [Homogeneous.predicted]
  · rw [Homogeneous.predicted, getD_map_lt _ _ _ (0, 0) _ hi]
    rfl

/-- The instance of the module's doctest: receivers `[(5,0), (5,10), (10,0)]`,
true source `(5, 5)`, `vp = 2`, `vs = 1`, so the noiseless residuals are
`(1/vs - 1/vp) * [5, 5, sqrt 50]`. -/
def hexample : Homogeneous :=
  ⟨[5 / 2, 5 / 2, Real.sqrt 50 / 2], [(5, 0), (5, 10), (10, 0)], 2, 1⟩

/-- Witness for C1 at the doctest instance, parameter `(5, 5)`, index 0. -/
theorem C1_witness :
    (hexample.predicted (5, 5)).length = hexample.recs.length ∧
    (hexample.predicted (5, 5)).getD 0 0 =
      (1 / hexample.vs - 1 / hexample.vp) *
        euclideanDist (hexample.recs.getD 0 (0, 0)) (5, 5) :=
  C1_predicted_length_and_formula hexample (5, 5) 0 (by simp [hexample])

/-- At a point of nonzero squared distance to receiver `r`, the derivative in
`x` of the predicted travel time for `r` is the first Jacobian entry. -/
theorem predictedAt_hasDerivAt_fst (h : Homogeneous) (r p : ℝ × ℝ)
    (hr : (r.1 - p.1) ^ 2 + (r.2 - p.2) ^ 2 ≠ 0) :
    HasDerivAt (fun x => h.predictedAt r (x, p.2)) ((h.jacobianRow p r).1) p.1 := by
  have h1 : HasDerivAt (fun x : ℝ => r.1 - x) (-1) p.1 := by
    simpa using (hasDerivAt_id p.1).const_sub r.1
  have hu : HasDerivAt (fun x : ℝ => (r.1 - x) ^ 2 + (r.2 - p.2) ^ 2)
      (2 * (r.1 - p.1) ^ 1 * (-1)) p.1 := by
    simpa using (h1.pow 2).add_const ((r.2 - p.2) ^ 2)
  have hmain := (hu.sqrt hr).const_mul h.alpha
  have hs0 : Real.sqrt ((r.1 - p.1) ^ 2 + (r.2 - p.2) ^ 2) ≠ 0 :=
    ne_of_gt (Real.sqrt_pos.mpr (lt_of_le_of_ne (by positivity) (Ne.symm hr)))
  have heq : h.alpha * (2 * (r.1 - p.1) ^ 1 * (-1) /
      (2 * Real.sqrt ((r.1 - p.1) ^ 2 + (r.2 - p.2) ^ 2))) =
      (h.jacobianRow p r).1 := by
    simp only [Homogeneous.jacobianRow, pow_one]
    field_simp
    ring
  simp only [Homogeneous.predictedAt]
  exact heq ▸ hmain

/-- At a point of nonzero squared distance to receiver `r`, the derivative in
`y` of the predicted travel time for `r` is the second Jacobian entry. -/
theorem predictedAt_hasDerivAt_snd (h : Homogeneous) (r p : ℝ × ℝ)
    (hr : (r.1 - p.1) ^ 2 + (r.2 - p.2) ^ 2 ≠ 0) :
    HasDerivAt (fun y => h.predictedAt r (p.1, y)) ((h.jacobianRow p r).2) p.2 := by
  have h1 : HasDerivAt (fun y : ℝ => r.2 - y) (-1) p.2 := by
    simpa using (hasDerivAt_id p.2).const_sub r.2
  have hu : HasDerivAt (fun y : ℝ => (r.1 - p.1) ^ 2 + (r.2 - y) ^ 2)
      (2 * (r.2 - p.2) ^ 1 * (-1)) p.2 := by
    simpa using ((h1.pow 2).const_add ((r.1 - p.1) ^ 2))
  have hmain := (hu.sqrt hr).const_mul h.alpha
  have hs0 : Real.sqrt ((r.1 - p.1) ^ 2 + (r.2 - p.2) ^ 2) ≠ 0 :=
    ne_of_gt (Real.sqrt_pos.mpr (lt_of_le_of_ne (by positivity) (Ne.symm hr)))
  have heq : h.alpha * (2 * (r.2 - p.2) ^ 1 * (-1) /
      (2 * Real.sqrt ((r.1 - p.1) ^ 2 + (r.2 - p.2) ^ 2))) =
      (h.jacobianRow p r).2 := by
    simp only [Homogeneous.jacobianRow, pow_one]
    field_simp
    ring
  simp only [Homogeneous.predictedAt]
  exact heq ▸ hmain

/-- C2: at every parameter pair `p` with no receiver coinciding with `p`,
`jacobian` returns a matrix with one row per observation whose row `i` holds
the partial derivative in `x` (entry 0) and in `y` (entry 1) of element `i` of
`predicted`, i.e. the analytic derivatives of the distance formula. -/
theorem C2_jacobian_is_partial_derivatives (h : Homogeneous) (p : ℝ × ℝ)
    (hlen : h.recs.length = h.ttres.length)
    (hnd : ∀ r ∈ h.recs, (r.1 - p.1) ^ 2 + (r.2 - p.2) ^ 2 ≠ 0) :
    ∃ J, h.jacobian p = some J ∧ J.length = h.ndata ∧
      ∀ i, i < J.length →
        HasDerivAt (fun x => (h.predicted (x, p.2)).getD i 0)
          ((J.getD i (0, 0)).1) p.1 ∧
        HasDerivAt (fun y => (h.predicted (p.1, y)).getD i 0)
          ((J.getD i (0, 0)).2) p.2 := by
  refine ⟨h.recs.map (fun r => h.jacobianRow p r), ?_, ?_, ?_⟩
  · simp [Homogeneous.jacobian, Homogeneous.ndata, hlen]
  · simp [Homogeneous.ndata, hlen]
  · intro i hi
    have hi' : i < h.recs.length := by simpa using hi
    have hmem : h.recs.getD i (0, 0) ∈ h.recs := by
      rw [List.getD_eq_getElem _ _ hi']
      exact List.getElem_mem hi'
    have hrow : (h.recs.map (fun r => h.jacobianRow p r)).getD i (0, 0) =
        h.jacobianRow p (h.recs.getD i (0, 0)) :=
      getD_map_lt _ _ _ (0, 0) _ hi'
    have hfx : (fun x => (h.predicted (x, p.2)).getD i 0) =
        fun x => h.predictedAt (h.recs.getD i (0, 0)) (x, p.2) := by
      funext x
      rw [Homogeneous.predicted, getD_map_lt _ _ _ (0, 0) _ hi']
    have hfy : (fun y => (h.predicted (p.1, y)).getD i 0) =
        fun y => h.predictedAt (h.recs.getD i (0, 0)) (p.1, y) := by
      funext y
      rw [Homogeneous.predicted, getD_map_lt _ _ _ (0, 0) _ hi']
    rw [hrow, hfx, hfy]
    exact ⟨predictedAt_hasDerivAt_fst h _ p (hnd _ hmem),
      predictedAt_hasDerivAt_snd h _ p (hnd _ hmem)⟩

/-- Witness for C2 at the doctest instance and the non-degenerate parameter
`(1, 1)`. -/
theorem C2_witness :
    ∃ J, hexample.jacobian (1, 1) = some J ∧ J.length = hexample.ndata ∧
      ∀ i, i < J.length →
        HasDerivAt (fun x => (hexample.predicted (x, 1)).getD i 0)
          ((J.getD i (0, 0)).1) 1 ∧
        HasDerivAt (fun y => (hexample.predicted (1, y)).getD i 0)
          ((J.getD i (0, 0)).2) 1 := by
  have := C2_jacobian_is_partial_derivatives hexample (1, 1)
    (by simp [hexample])
    (by
      intro r hr
      simp only [hexample, List.mem_cons, List.not_mem_nil, or_false] at hr
      rcases hr with rfl | rfl | rfl <;> norm_num)
  simpa using this

/-- C4: at the parameter `(5, 0)`, which coincides with receiver `(5, 0)` of
the doctest instance (zero receiver-epicenter distance), `jacobian` does not
signal any domain error: it still returns a matrix, computed by dividing by
the zero distance (numpy emits nan/inf entries and only a runtime warning). -/
theorem C4_jacobian_unguarded_at_receiver :
    ((5 : ℝ), (0 : ℝ)) ∈ hexample.recs ∧
    euclideanDist (5, 0) ((5 : ℝ), (0 : ℝ)) = 0 ∧
    (hexample.jacobian (5, 0)).isSome = true := by
  refine ⟨by simp [hexample], ?_, ?_⟩
  · simp [euclideanDist]
  · simp [hexample, Homogeneous.jacobian, Homogeneous.ndata]

/-- C3: `predicted` on a parameter sequence whose length is not 2 fails (the
unpacking `x, y = p` raises `ValueError`) instead of returning a result. -/
theorem C3_predicted_rejects_bad_arity (h : Homogeneous) (p : List ℝ)
    (hp : p.length ≠ 2) : h.predictedSeq p = none := by
  cases p with
  | nil => rfl
  | cons a q =>
    cases q with
    | nil => rfl
    | cons b r =>
      cases r with
      | nil => simp at hp
      | cons c s => rfl

/-- Witness for C3: a length-3 parameter sequence is rejected. -/
theorem C3_witness :
    ([1, 2, 3] : List ℝ).length ≠ 2 ∧ hexample.predictedSeq [1, 2, 3] = none :=
  ⟨by simp, C3_predicted_rejects_bad_arity hexample [1, 2, 3] (by simp)⟩

/-- C5: neither `predicted` nor `jacobian` mutates the instance: after a call
the receiver set, the observation data and the velocities are the values set
at construction. -/
theorem C5_no_mutation (h : Homogeneous) (p : List ℝ) (q : ℝ × ℝ) :
    (h.predictedCall p).2.recs = h.recs ∧
    (h.predictedCall p).2.ttres = h.ttres ∧
    (h.predictedCall p).2.vp = h.vp ∧
    (h.predictedCall p).2.vs = h.vs ∧
    (h.jacobianCall q).2 = h :=
  ⟨rfl, rfl, rfl, rfl, rfl⟩

/-- C6 counterexample: the constructor performs no validation, so an instance
whose receiver count differs from its observation count is constructible; the
claimed invariant "length of receiver set equals length of observation set"
fails for it. -/
theorem C6_counterexample :
    (Homogeneous.mk [1] [(0, 0), (2, 3)] 2 1).recs.length ≠
      (Homogeneous.mk [1] [(0, 0), (2, 3)] 2 1).ttres.length := by
  simp

/-- C6 (amended): `nparams` is always 2, and for every instance whose receiver
count does equal its observation count (`ndata`), `jacobian` succeeds and the
returned matrix has exactly `ndata` rows.  The equality itself is not enforced
at construction. -/
theorem C6_invariants (h : Homogeneous) (p : ℝ × ℝ)
    (hlen : h.recs.length = h.ttres.length) :
    h.nparams = 2 ∧ h.recs.length = h.ndata ∧
    ∃ J, h.jacobian p = some J ∧ J.length = h.ndata := by
  refine ⟨rfl, hlen, h.recs.map (fun r => h.jacobianRow p r), ?_, ?_⟩
  · simp [Homogeneous.jacobian, Homogeneous.ndata, hlen]
  · simp [Homogeneous.ndata, hlen]

/-- Witness for C6 at the doctest instance. -/
theorem C6_witness :
    hexample.nparams = 2 ∧ hexample.recs.length = hexample.ndata ∧
    ∃ J, hexample.jacobian (1, 1) = some J ∧ J.length = hexample.ndata :=
  C6_invariants hexample (1, 1) (by simp [hexample])

/-- C7: `predicted` and `jacobian` are deterministic pure functions: a second
evaluation on the same parameters, from the state left by the first, returns
the same result and the same state. -/
theorem C7_deterministic (h : Homogeneous) (p : List ℝ) (q : ℝ × ℝ) :
    (h.predictedCall p).2.predictedCall p = h.predictedCall p ∧
    (h.jacobianCall q).2.jacobianCall q = h.jacobianCall q :=
  ⟨rfl, rfl⟩

namespace DerivativeDetector

/-- One loop-body step of `_compute_derivatives` for consecutive items
`pre = (pre_timestamp, pre_value)` and `cur = (timestamp, value)`:
`derivative = (value - pre_value) / td if td != 0 else value - pre_value`
with `td = timestamp - pre_timestamp`, then `derivative = abs(derivative)`. -/
def rawDerivative (pre cur : ℝ × ℝ) : ℝ :=
  let td := cur.1 - pre.1
  |if td ≠ 0 then (cur.2 - pre.2) / td else cur.2 - pre.2|

/-- The loop of `_compute_derivatives`: one derivative per consecutive pair of
time-series items. -/
def pairDerivs : List (ℝ × ℝ) → List ℝ
  | [] => []
  | [_] => []
  | a :: b :: rest => rawDerivative a b :: pairDerivs (b :: rest)

/-- `_compute_derivatives`: the pairwise loop followed by
`if derivatives: derivatives.insert(0, derivatives[0])`, duplicating the head
so that the first timestamp gets the derivative of the second. -/
def compute_derivatives (items : List (ℝ × ℝ)) : List ℝ :=
  match pairDerivs items with
  | [] => []
  | d :: rest => d :: d :: rest

theorem rawDerivative_nonneg (pre cur : ℝ × ℝ) : 0 ≤ rawDerivative pre cur := by
  simp only [rawDerivative]
  exact abs_nonneg _

theorem pairDerivs_length :
    ∀ items : List (ℝ × ℝ), (pairDerivs items).length = items.length - 1
  | [] => rfl
  | [_] => rfl
  | a :: b :: rest => by
    have ih := pairDerivs_length (b :: rest)
    simp [pairDerivs] at ih ⊢
    omega

theorem pairDerivs_nonneg :
    ∀ items : List (ℝ × ℝ), ∀ d ∈ pairDerivs items, 0 ≤ d
  | [] => by simp [pairDerivs]
  | [_] => by simp [pairDerivs]
  | a :: b :: rest => by
    intro d hd
    rcases (List.mem_cons).mp hd with rfl | hd'
    · exact rawDerivative_nonneg a b
    · exact pairDerivs_nonneg (b :: rest) d hd'

/-- C9 counterexample: on the single-point series `[(0, 1)]` the derivatives
list is empty, not one entry per point, so the claimed shape fails on a
non-empty input. -/
theorem C9_counterexample :
    ¬ (compute_derivatives [((0 : ℝ), (1 : ℝ))]).length =
        [((0 : ℝ), (1 : ℝ))].length := by
  norm_num [compute_derivatives, pairDerivs]

/-- C9 (amended): for every series with at least two points,
`_compute_derivatives` yields exactly one entry per point, every entry is
non-negative, and the first entry equals the second; a one-point series
yields an empty list instead. -/
theorem C9_derivatives_shape (items : List (ℝ × ℝ)) (h2 : 2 ≤ items.length) :
    (compute_derivatives items).length = items.length ∧
    (∀ d ∈ compute_derivatives items, 0 ≤ d) ∧
    (compute_derivatives items).getD 0 0 = (compute_derivatives items).getD 1 0 := by
  have hlen := pairDerivs_length items
  have hnn := pairDerivs_nonneg items
  rcases hpd : pairDerivs items with _ | ⟨d, rest⟩
  · rw [hpd] at hlen
    simp at hlen
    omega
  · rw [hpd] at hlen hnn
    refine ⟨?_, ?_, ?_⟩
    · simp only [compute_derivatives, hpd, List.length_cons]
      simp at hlen
      omega
    · intro x hx
      simp only [compute_derivatives, hpd, List.mem_cons] at hx
      rcases hx with rfl | rfl | hx
      · exact hnn x (by simp)
      · exact hnn x (by simp)
      · exact hnn x (by simp [hx])
    · simp [compute_derivatives, hpd]

/-- Witness for C9 at the three-point series `[(0,1), (1,3), (3,3)]`. -/
theorem C9_witness :
    (compute_derivatives [((0 : ℝ), 1), (1, 3), (3, 3)]).length =
      [((0 : ℝ), 1), (1, 3), (3, 3)].length ∧
    (∀ d ∈ compute_derivatives [((0 : ℝ), 1), (1, 3), (3, 3)], 0 ≤ d) ∧
    (compute_derivatives [((0 : ℝ), 1), (1, 3), (3, 3)]).getD 0 0 =
      (compute_derivatives [((0 : ℝ), 1), (1, 3), (3, 3)]).getD 1 0 :=
  C9_derivatives_shape [((0 : ℝ), 1), (1, 3), (3, 3)] (by simp)

/-- Division with an explicit division-by-zero error value. -/
def safeDiv (a b : ℝ) : Option ℝ := if b = 0 then none else some (a / b)

/-- `rawDerivative` with its one division routed through `safeDiv`. -/
def rawDerivativeChecked (pre cur : ℝ × ℝ) : Option ℝ :=
  let td := cur.1 - pre.1
  if td ≠ 0 then (safeDiv (cur.2 - pre.2) td).map (fun v => |v|)
  else some |cur.2 - pre.2|

theorem rawDerivativeChecked_eq (pre cur : ℝ × ℝ) :
    rawDerivativeChecked pre cur = some (rawDerivative pre cur) := by
  by_cases h : cur.1 - pre.1 = 0 <;>
    simp [rawDerivativeChecked, rawDerivative, safeDiv, h]

/-- The loop of `_compute_derivatives` with checked division. -/
def pairDerivsChecked : List (ℝ × ℝ) → Option (List ℝ)
  | [] => some []
  | [_] => some []
  | a :: b :: rest => do
    let d ← rawDerivativeChecked a b
    let ds ← pairDerivsChecked (b :: rest)
    pure (d :: ds)

theorem pairDerivsChecked_eq :
    ∀ items : List (ℝ × ℝ), pairDerivsChecked items = some (pairDerivs items)
  | [] => rfl
  | [_] => rfl
  | a :: b :: rest => by
    simp [pairDerivsChecked, pairDerivs, rawDerivativeChecked_eq,
      pairDerivsChecked_eq (b :: rest)]

/-- `_compute_derivatives` with checked division. -/
def computeDerivativesChecked (items : List (ℝ × ℝ)) : Option (List ℝ) := do
  let ds ← pairDerivsChecked items
  match ds with
  | [] => pure []
  | d :: rest => pure (d :: d :: rest)

/-- `numpy.std` of a list of reals: the population standard deviation
`sqrt(mean((x - mean(x))**2))`. -/
def numpyStd (xs : List ℝ) : ℝ :=
  let m := xs.sum / xs.length
  Real.sqrt ((xs.map (fun x => (x - m) ^ 2)).sum / xs.length)

/-- The anomaly scores of `_set_scores` before normalization:
`abs(self.derivatives[i] - derivatives_ema[i])` per time-series point.  The
exponential moving average `utils.compute_ema` lives outside `src/` (spec:
smoothing utilities are external collaborators), so it enters as an arbitrary
list `ema` index-aligned with the derivatives. -/
def anomScoresRaw (items : List (ℝ × ℝ)) (ema : List ℝ) : List ℝ :=
  List.zipWith (fun d e => |d - e|) (compute_derivatives items) ema

/-- The normalization tail of `_set_scores`: `if stdev:` divide every score by
the standard deviation, otherwise leave the scores unnormalized. -/
def set_scores (items : List (ℝ × ℝ)) (ema : List ℝ) : List ℝ :=
  let scores := anomScoresRaw items ema
  let s := numpyStd scores
  if s ≠ 0 then scores.map (fun v => v / s) else scores

/-- `set_scores` with every division routed through `safeDiv`. -/
def setScoresChecked (items : List (ℝ × ℝ)) (ema : List ℝ) : Option (List ℝ) :=
  let scores := anomScoresRaw items ema
  let s := numpyStd scores
  if s ≠ 0 then scores.mapM (fun v => safeDiv v s) else some scores

theorem mapM_safeDiv (s : ℝ) (hs : s ≠ 0) :
    ∀ xs : List ℝ, xs.mapM (fun v => safeDiv v s) =
      some (xs.map (fun v => v / s))
  | [] => rfl
  | x :: t => by
    rw [List.mapM_cons, mapM_safeDiv s hs t]
    simp [safeDiv, hs]

/-- C10: the detector never divides by zero.  When two consecutive timestamps
are equal the derivative is the raw value difference (no division), and both
`_compute_derivatives` and `_set_scores` agree with their checked-division
versions on every input, so every division they perform has a nonzero
divisor (`_set_scores` divides only when the standard deviation is nonzero,
otherwise leaves the scores unnormalized). -/
theorem C10_no_division_by_zero (pre cur : ℝ × ℝ) (hts : cur.1 = pre.1)
    (items : List (ℝ × ℝ)) (ema : List ℝ) :
    rawDerivative pre cur = |cur.2 - pre.2| ∧
    computeDerivativesChecked items = some (compute_derivatives items) ∧
    setScoresChecked items ema = some (set_scores items ema) := by
  refine ⟨?_, ?_, ?_⟩
  · simp [rawDerivative, hts]
  · rcases hpd : pairDerivs items with _ | ⟨d, rest⟩ <;>
      simp [computeDerivativesChecked, compute_derivatives,
        pairDerivsChecked_eq, hpd]
  · by_cases hs : numpyStd (anomScoresRaw items ema) = 0
    · simp only [setScoresChecked, set_scores, if_neg (not_not_intro hs)]
    · simp only [setScoresChecked, set_scores, if_pos hs]
      exact mapM_safeDiv _ hs _

/-- Witness for C10: equal timestamps at `(5, 1)` and `(5, 4)`, and the
two-point series `[(0,1), (1,3)]` with a zero moving average. -/
theorem C10_witness :
    rawDerivative (5, 1) ((5 : ℝ), (4 : ℝ)) = |(4 : ℝ) - 1| ∧
    computeDerivativesChecked [((0 : ℝ), 1), (1, 3)] =
      some (compute_derivatives [((0 : ℝ), 1), (1, 3)]) ∧
    setScoresChecked [((0 : ℝ), 1), (1, 3)] [0, 0] =
      some (set_scores [((0 : ℝ), 1), (1, 3)] [0, 0]) :=
  C10_no_division_by_zero (5, 1) (5, 4) rfl [((0 : ℝ), 1), (1, 3)] [0, 0]

end DerivativeDetector

end Geoist

end
